import Mathlib

/-!
Verification of the core table engine (`table.py`): a shallow embedding of
the write path (blob dedup, key autogeneration, key checks), the read path
(`fetch_tablet`, `_fetch_pseudotablet`, `_smart_load_blobs`,
`_fetch_blobs_fp`), alias resolution, schema persistence, and file-group
path resolution, together with proofs of the specified properties.

Conventions of the embedding:
* numpy arrays are Lean lists; structured rows are lists of `Int` indexed
  by column position.
* 64-bit unsigned keys are `Nat` with `objPart k = k % 2^32` and
  `cellPart k = k / 2^32`.
* a Python object held in a blob column is `Option Nat`: `none` is the
  `None` singleton, `some i` is a heap object whose identity token is `i`.
  CPython's `id()` is modelled by `pid`, with `id(None)` the smallest
  identity (the `None` singleton lives at a low static address, below all
  heap objects; the source relies on this in its `np.unique` remapping).
* fallible Python code (assertions, KeyError) returns `Except String`.
-/

namespace LSD

/-- Model of numpy's `np.unique` applied to a 1-D array: the sorted list of
the distinct values. -/
def npUnique {α : Type} [LinearOrder α] [DecidableEq α] (l : List α) : List α :=
  (l.insertionSort (· ≤ ·)).dedup

/-! ### C1 — blob storage in `Table.append` (identity dedup, None → ref 0) -/

/-- CPython `id()` of a batch entry: `none` (the `None` singleton) is
modelled as identity 0, a heap object with identity token `i` as `i + 1`. -/
def pid : Option Nat → Nat
  | none => 0
  | some i => i + 1

/-- Inverse of `pid`: an identity determines the in-memory object. -/
def objOfIdent : Nat → Option Nat
  | 0 => none
  | i + 1 => some i

/-- The identity array
`idents = np.fromiter((id(v) for v in flatB), dtype=np.uint64)`. -/
def blobIdents (flatB : List (Option Nat)) : List Nat := flatB.map pid

/-- The sorted distinct identities (first output of
`np.unique(idents, return_index=True, return_inverse=True)`). -/
def blobUnique (flatB : List (Option Nat)) : List Nat :=
  npUnique (blobIdents flatB)

/-- The unique objects `uobjs = flatB[idx]`, with `idx` the first-occurrence
index of each unique identity (second output of `np.unique`). -/
def blobUobjs (flatB : List (Option Nat)) : List (Option Nat) :=
  (blobUnique flatB).map
    (fun v => flatB.getD ((blobIdents flatB).indexOf v) none)

/-- The inverse-broadcast indices offset by the VLArray length
(`ito`, third output of `np.unique`, after `ito = ito + bsize`). -/
def blobIto (bsize : Nat) (flatB : List (Option Nat)) : List Int :=
  (blobIdents flatB).map
    (fun v => ((blobUnique flatB).indexOf v : Int) + (bsize : Int))

/-- One blob column's write step in `Table.append` (lines 1071-1105):
if `len(uobjs) and uobjs[0] is None` then
`uobjs = uobjs[1:]; ito -= 1; ito[ito == bsize-1] = 0`.
Returns `(uobjs, refs)`: the unique values appended to the VLArray (in the
sorted-identity order `np.unique` produces) and the per-row references
written into the row buffer. `bsize = len(barray)` is the VLArray length
before the append. -/
def blobStep (bsize : Nat) (flatB : List (Option Nat)) :
    List (Option Nat) × List Int :=
  if (blobUobjs flatB).headD (some 0) = none then
    ((blobUobjs flatB).tail,
      ((blobIto bsize flatB).map (fun r => r - 1)).map
        (fun r => if r = (bsize : Int) - 1 then 0 else r))
  else
    (blobUobjs flatB, blobIto bsize flatB)

/-! ### C2 — the per-cell sequence array `_seq_<pk>` (lines 967-995) -/

/-- State of one cell's primary-cgroup tablet that the sequence logic
touches: the sequence array's single value and the obj_parts of the keys
stored in the `main` and `cached` row tables. -/
structure CellState where
  seq : Nat
  mainObjParts : List Nat
  cachedObjParts : List Nat
deriving DecidableEq

/-- Model of `np.max` on a list of naturals (the source never applies it to
an empty batch: every touched cell has at least one incoming row). -/
def listMax (l : List Nat) : Nat := l.foldr max 0

/-- Replacement of the zero obj_parts by consecutive generated identifiers
starting at `next` (`genIds = np.arange(id0, id0 + nnk)`;
`colsT[key][need_keys] += genIds`). -/
def assignGen : List Nat → Nat → List Nat
  | [], _ => []
  | 0 :: rest, next => next :: assignGen rest (next + 1)
  | (i + 1) :: rest, next => (i + 1) :: assignGen rest next

/-- Number of incoming keys that need autogeneration (`need_keys.sum()`). -/
def countZeros (l : List Nat) : Nat := (l.filter (fun x => x == 0)).length

/-- Primary-cgroup `main`-group write of one cell in `Table.append`
(lines 967-995): `id0 = id_seq[0] = max(id_seq[0], np.max(i)+1)`; keys
with obj_part 0 receive `id0, id0+1, ...` and `id_seq[0] = id0 + nnk`;
the completed keys land in the `main` row table. -/
def appendMain (st : CellState) (incoming : List Nat) : CellState :=
  let id0 := max st.seq (listMax incoming + 1)
  let nnk := countZeros incoming
  { st with
    seq := id0 + nnk
    mainObjParts := st.mainObjParts ++ assignGen incoming id0 }

/-- A `group='cached'` write: `_seq_<pk>` exists only under `main`, so
`getattr(g, '_seq_' + key, None)` is `None` and the sequence is neither
read nor advanced; the rows go to the `cached` table. -/
def appendCachedGroup (st : CellState) (incoming : List Nat) : CellState :=
  { st with cachedObjParts := st.cachedObjParts ++ incoming }

/-! ### C3 — primary-key acceptance check in `Table.append` (lines 869-882) -/

/-- Low 32 bits of a 64-bit key: the in-cell object index. -/
def objPart (k : Nat) : Nat := k % 2 ^ 32

/-- High 32 bits of a 64-bit key: the cell part. -/
def cellPart (k : Nat) : Nat := k / 2 ^ 32

/-- Modelled from the spec: the external `Pixelization.is_cell_id` (the
pixelization library is not part of this repository) — "true iff
obj_part == 0 and cell_part is valid"; cell-part validity is kept as a
parameter `valid`. -/
def isCellId (valid : Nat → Bool) (k : Nat) : Bool :=
  (objPart k == 0) && valid (cellPart k)

/-- The masking `cols[key][cid] &= np.uint64(0xFFFFFFFF00000000)` applied
to one key. -/
def maskBase (k : Nat) : Nat := k &&& 0xFFFFFFFF00000000

/-- Masking of the recognized bare cell-IDs in the key column. -/
def maskKeys (valid : Nat → Bool) (keys : List Nat) : List Nat :=
  keys.map (fun k => if isCellId valid k then maskBase k else k)

/-- The supplied-primary-key phase of `Table.append` (lines 874-882):
`cid = self.pix.is_cell_id(cols[key])`;
`assert cid.all() or _update or cell_id is not None`;
`cols[key][cid] &= np.uint64(0xFFFFFFFF00000000)`.
The failed assertion aborts the append before any cell is written. -/
def appendKeyPhase (valid : Nat → Bool) (keys : List Nat)
    (update cellIdGiven : Bool) : Except String (List Nat) :=
  if keys.all (isCellId valid) || update || cellIdGiven then
    .ok (maskKeys valid keys)
  else
    .error "If keys are given, they must refer to the cell only."

/-! ### C4, C6 — `fetch_tablet` and `_fetch_pseudotablet` -/

/-- An on-disk tablet file: the `main` row table and, when the group
exists, the `cached` row table. A row is the list of its column values. -/
structure TabletFile where
  main : List (List Int)
  cached : Option (List (List Int))
deriving DecidableEq

/-- Negation of one blob-reference column across a row
(`rows2[blobcol] *= -1` acting on a single row). -/
def negCol (ci : Nat) (row : List Int) : List Int :=
  row.set ci (-(row.getD ci 0))

/-- The loop `for blobcol in schema['blobs']: rows2[blobcol] *= -1`. -/
def negBlobCols (blobIdxs : List Nat) (rows : List (List Int)) :
    List (List Int) :=
  blobIdxs.foldl (fun rs ci => rs.map (negCol ci)) rows

/-- `Table.fetch_tablet` for a non-pseudo cgroup (lines 1341-1359), after
the static-cell fallback has resolved `cell_id`: `file` is the tablet file
of `(cell_id, cgroup)` or `none` when it does not exist, `blobIdxs` the
column positions of the cgroup's blob columns. -/
def fetchTablet (file : Option TabletFile) (blobIdxs : List Nat)
    (includeCached : Bool) : List (List Int) :=
  match file with
  | none => []
  | some fp =>
    let rows := fp.main
    match includeCached, fp.cached with
    | true, some rows2 => rows ++ negBlobCols blobIdxs rows2
    | _, _ => rows

/-- `Table._fetch_pseudotablet` (lines 1361-1391): `file` is the primary
cgroup's tablet file for the cell (or `none`), `idForCellI` the external
`pix.id_for_cell_i`. Returns the columns `(_CACHED, _ROWIDX, _ROWID)`. -/
def fetchPseudotablet (idForCellI : Nat → Nat → Nat) (cellId : Nat)
    (file : Option TabletFile) (includeCached : Bool) :
    List Bool × List Nat × List Nat :=
  let nrows1 := match file with
    | none => 0
    | some fp => fp.main.length
  let nrows2 := match file, includeCached with
    | some fp, true => (match fp.cached with | some c => c.length | none => 0)
    | _, _ => 0
  let nrows := nrows1 + nrows2
  let cached := (List.range nrows).map (fun i => decide (nrows1 ≤ i))
  let rowidx := List.range nrows
  let rowid := rowidx.map (idForCellI cellId)
  (cached, rowidx, rowid)

/-! ### C5, C10 — `_smart_load_blobs` and `_fetch_blobs_fp` -/

/-- `Table._smart_load_blobs` (lines 1164-1207): unique the refs, assert
none is negative, load each unique ref once (`objlist = barray[ui]`) and
broadcast back (`blobs = blobs[idx]`). -/
def smartLoadBlobs (barray : List (Option Nat)) (refs : List Int) :
    Except String (List (Option Nat)) :=
  let ui := npUnique refs
  if ui.all (fun r => decide (0 ≤ r)) then
    let objlist := ui.map (fun r => barray.getD r.toNat none)
    let idx := refs.map (fun r => ui.indexOf r)
    .ok (idx.map (fun j => objlist.getD j none))
  else
    .error "Negative refs are illegal. Index 0 means None"

/-- Boolean-mask assignment `dest[mask] = vals`: positions where the mask
is true receive the successive values, the rest keep the base entries. -/
def maskAssign : List Bool → List (Option Nat) → List (Option Nat) →
    List (Option Nat)
  | true :: ms, _ :: bs, v :: vs => v :: maskAssign ms bs vs
  | true :: ms, b :: bs, [] => b :: maskAssign ms bs []
  | false :: ms, b :: bs, vs => b :: maskAssign ms bs vs
  | _, bs, _ => bs

/-- `Table._fetch_blobs_fp` (lines 1209-1263) on already-flattened refs:
when `include_cached` and the `cached` group exists, the non-negative refs
load from `main/blobs/<col>` and the negative refs load (negated) from
`cached/blobs/<col>`, scattered back by boolean masks; otherwise all refs
go through `_smart_load_blobs` on the main array. -/
def fetchBlobsFp (mainArr : List (Option Nat))
    (cachedArr : Option (List (Option Nat))) (includeCached : Bool)
    (refs : List Int) : Except String (List (Option Nat)) :=
  if includeCached && cachedArr.isSome then
    let b2 := cachedArr.getD []
    do
      let pos ← smartLoadBlobs mainArr (refs.filter (fun r => decide (0 ≤ r)))
      let neg ← smartLoadBlobs b2
        ((refs.filter (fun r => decide (r < 0))).map (fun r => -r))
      let blobs : List (Option Nat) := List.replicate refs.length none
      let blobs := maskAssign (refs.map (fun r => decide (0 ≤ r))) blobs pos
      let blobs := maskAssign (refs.map (fun r => decide (r < 0))) blobs neg
      pure blobs
  else
    smartLoadBlobs mainArr refs

/-! ### C7, C8, C9 — schema store, alias resolution, file-group paths -/

/-- Settings of one blob column in a cgroup schema (`filters`,
`expectedsizeinMB`, `type`); the values only pass through load/store, so
the dict / float payloads are modelled as scalar stand-ins. -/
structure BlobDef where
  filtersOpt : Option String
  expectedsizeinMB : Option Int
  btype : Option String
deriving DecidableEq

/-- One cgroup's schema dict. A JSON object has each field exactly when
the corresponding `Option` is `some`. -/
structure CGroupSchema where
  columns : List (String × String)
  primary_key : Option String
  spatial_keys : Option (String × String)
  temporal_key : Option String
  exposure_key : Option String
  blobs : Option (List (String × BlobDef))
  pathOpt : Option String
  filtersOpt : Option (List (String × Int))
  expectedrows : Option Nat
deriving DecidableEq

/-- A file group definition: optional `path` and optional `filter`
(filter name paired with a kwargs stand-in). -/
structure FGroupDef where
  path : Option String
  filter : Option (String × Int)
deriving DecidableEq

/-- The JSON document `schema.cfg`: keys `name`, `nrows`, `level`, `t0`,
`dt`, `cgroups` (an ordered sequence of pairs), `fgroups`, `filters`,
`aliases` (JSON objects, modelled as association lists in file order). -/
structure SchemaFile where
  name : String
  nrows : Option Int
  level : Int
  t0 : Int
  dt : Int
  cgroups : List (String × CGroupSchema)
  fgroups : List (String × FGroupDef)
  filters : List (String × Int)
  aliases : List (String × String)
deriving DecidableEq

/-- The `ColumnType` record of `table.py`. -/
structure ColumnType where
  name : String
  cgroup : String
  dtype : String
  is_blob : Bool
deriving DecidableEq

/-- The in-memory state `_load_schema` produces: the data members of
`Table` that `_load_schema` / `_rebuild_internal_schema` set. -/
structure TableState where
  name : String
  nrows : Option Int
  level : Int
  t0 : Int
  dt : Int
  cgroups : List (String × CGroupSchema)
  fgroups : List (String × FGroupDef)
  filters : List (String × Int)
  aliases : List (String × String)
  columns : List (String × ColumnType)
  primary_cgroup : Option String
  primary_key : Option ColumnType
  spatial_keys : Option (ColumnType × ColumnType)
  temporal_key : Option ColumnType
deriving DecidableEq

/-- `Table._is_pseudotablet`: the cgroup name begins with an underscore. -/
def isPseudotablet (cgroup : String) : Bool := cgroup.front = '_'

/-- The `_PSEUDOCOLS` schema added in memory by `_load_schema`. -/
def pseudocolsSchema : CGroupSchema :=
  { columns := [("_CACHED", "bool"), ("_ROWIDX", "u8"), ("_ROWID", "u8")]
    primary_key := none, spatial_keys := none, temporal_key := none
    exposure_key := none, blobs := none, pathOpt := none
    filtersOpt := none, expectedrows := none }

/-- OrderedDict assignment `d[k] = v`: overwrite in place when the key
exists, append at the end otherwise. -/
def assocSet (l : List (String × CGroupSchema)) (k : String)
    (v : CGroupSchema) : List (String × CGroupSchema) :=
  if (l.lookup k).isSome then
    l.map (fun p => if p.1 = k then (k, v) else p)
  else
    l ++ [(k, v)]

/-- The accumulator of `_rebuild_internal_schema`. -/
structure RebuildState where
  columns : List (String × ColumnType)
  primary_cgroup : Option String
  primary_key : Option ColumnType
  spatial_keys : Option (ColumnType × ColumnType)
  temporal_key : Option ColumnType
deriving DecidableEq

/-- Adding one declared column to the index
(`assert colname not in self.columns; self.columns[colname] = ...`). -/
def addColumn (cgName : String) (cols : List (String × ColumnType))
    (cd : String × String) : Except String (List (String × ColumnType)) :=
  if (cols.lookup cd.1).isSome then
    .error "assert failed: colname not in self.columns"
  else
    .ok (cols ++
      [(cd.1, { name := cd.1, cgroup := cgName, dtype := cd.2, is_blob := false })])

/-- Dictionary access `self.columns[n]` (KeyError when absent). -/
def lookupColumn (cols : List (String × ColumnType)) (n : String) :
    Except String ColumnType :=
  match cols.lookup n with
  | some c => .ok c
  | none => .error "KeyError"

/-- Blob declaration processing: `assert columns[colname].dtype.base ==
np.int64` (the dtype code must be `i8`), then mark the column a blob. -/
def markBlob (cols : List (String × ColumnType)) (bd : String × BlobDef) :
    Except String (List (String × ColumnType)) := do
  let c ← lookupColumn cols bd.1
  if c.dtype = "i8" then
    .ok (cols.map (fun p =>
      if p.1 = bd.1 then (p.1, { p.2 with is_blob := true }) else p))
  else
    .error "Data structure error: blob reference columns must be of int64 type"

/-- One iteration of the `_rebuild_internal_schema` loop over
`self._cgroups`: add the declared columns, fix the primary cgroup and its
keys on the first non-pseudo cgroup (and assert that later cgroups declare
no `primary_key` / `spatial_keys` — the source's third assert misspells
the temporal key as `temporak_key`, so a temporal key in a non-primary
cgroup is not rejected), then process the blob declarations. -/
def rebuildStep (st : RebuildState) (cg : String × CGroupSchema) :
    Except String RebuildState := do
  let cols ← cg.2.columns.foldlM (addColumn cg.1) st.columns
  let next ←
    if st.primary_cgroup.isNone && !(isPseudotablet cg.1) then do
      let pk ← match cg.2.primary_key with
        | some n => do
            let c ← lookupColumn cols n
            pure (some c)
        | none => pure st.primary_key
      let tk ← match cg.2.temporal_key with
        | some n => do
            let c ← lookupColumn cols n
            pure (some c)
        | none => pure st.temporal_key
      let sk ← match cg.2.spatial_keys with
        | some nm => do
            let clo ← lookupColumn cols nm.1
            let cla ← lookupColumn cols nm.2
            pure (some (clo, cla))
        | none => pure st.spatial_keys
      pure (some cg.1, pk, sk, tk)
    else
      if cg.2.primary_key.isSome then
        throw "assert failed: primary_key not in schema"
      else if cg.2.spatial_keys.isSome then
        throw "assert failed: spatial_keys not in schema"
      else
        pure (st.primary_cgroup, st.primary_key, st.spatial_keys, st.temporal_key)
  let cols2 ← (cg.2.blobs.getD []).foldlM markBlob cols
  pure { columns := cols2, primary_cgroup := next.1, primary_key := next.2.1
         spatial_keys := next.2.2.1, temporal_key := next.2.2.2 }

/-- Fresh internal schema (a newly constructed `Table`). -/
def rebuildInit : RebuildState :=
  { columns := [], primary_cgroup := none, primary_key := none
    spatial_keys := none, temporal_key := none }

/-- `Table._rebuild_internal_schema` over the cgroups in order. -/
def rebuildAll (cgroups : List (String × CGroupSchema)) :
    Except String RebuildState :=
  cgroups.foldlM rebuildStep rebuildInit

/-- `Table._load_schema` (lines 351-403): read the document, append the
in-memory `_PSEUDOCOLS` cgroup (`self._cgroups['_PSEUDOCOLS'] = ...`),
rebuild the internal schema. -/
def loadSchema (f : SchemaFile) : Except String TableState := do
  let rb ← rebuildAll (assocSet f.cgroups "_PSEUDOCOLS" pseudocolsSchema)
  pure { name := f.name, nrows := f.nrows, level := f.level, t0 := f.t0
         dt := f.dt
         cgroups := assocSet f.cgroups "_PSEUDOCOLS" pseudocolsSchema
         fgroups := f.fgroups
         filters := f.filters, aliases := f.aliases, columns := rb.columns
         primary_cgroup := rb.primary_cgroup, primary_key := rb.primary_key
         spatial_keys := rb.spatial_keys, temporal_key := rb.temporal_key }

/-- Sorting of a JSON object's keys (`json.dumps(..., sort_keys=True)`). -/
def sortPairsByKey {β : Type} (l : List (String × β)) : List (String × β) :=
  l.insertionSort (fun a b => a.1 ≤ b.1)

/-- `Table._store_schema` (lines 405-422): cgroups are written as an
ordered list of pairs, skipping names that begin with `_`; the JSON
objects `fgroups`, `filters`, `aliases` are written with sorted keys. -/
def storeSchema (st : TableState) : SchemaFile :=
  { name := st.name, nrows := st.nrows, level := st.level, t0 := st.t0
    dt := st.dt
    cgroups := st.cgroups.filter (fun p => !(isPseudotablet p.1))
    fgroups := sortPairsByKey st.fgroups
    filters := sortPairsByKey st.filters
    aliases := sortPairsByKey st.aliases }

/-- `Table.resolve_alias` (lines 809-836): `schema` is the primary
cgroup's schema, `aliases` the user alias map. -/
def resolveAlias (schema : CGroupSchema) (aliases : List (String × String))
    (colname : String) : String :=
  if colname == "_ID" && schema.primary_key.isSome then
    schema.primary_key.getD ""
  else if colname == "_LON" && schema.spatial_keys.isSome then
    (schema.spatial_keys.getD ("", "")).1
  else if colname == "_LAT" && schema.spatial_keys.isSome then
    (schema.spatial_keys.getD ("", "")).2
  else if colname == "_TIME" && schema.temporal_key.isSome then
    schema.temporal_key.getD ""
  else if colname == "_EXP" && schema.exposure_key.isSome then
    schema.exposure_key.getD ""
  else
    (aliases.lookup colname).getD colname

/-- `Table._get_fgroup_path` (lines 94-101) as written: the fallback
condition is `fgroup not in self._fgroups or 'path' not in self._fgroups`
— the second membership test is on the **outer** fgroups dict; when it is
not taken, `self._fgroups[fgroup]['path']` is read (KeyError when the
inner dict has no `path`). -/
def getFgroupPath (tablePath : String)
    (fgroups : List (String × FGroupDef)) (fgroup : String) :
    Except String String :=
  if (fgroups.lookup fgroup).isNone || (fgroups.lookup "path").isNone then
    .ok (tablePath ++ "/files/" ++ fgroup)
  else
    match fgroups.lookup fgroup with
    | some fd =>
        match fd.path with
        | some p => .ok p
        | none => .error "KeyError: path"
    | none => .error "unreachable"

/-- Modelled from the spec: the intended `_get_fgroup_path` — the spec
states the source's outer-map membership test is likely a bug and that the
condition should read "the inner fgroup dict lacks a `path` key", falling
back to the default directory `<table_path>/files/<fgroup>`. -/
def getFgroupPathSpec (tablePath : String)
    (fgroups : List (String × FGroupDef)) (fgroup : String) : String :=
  match fgroups.lookup fgroup with
  | some fd =>
      match fd.path with
      | some p => p
      | none => tablePath ++ "/files/" ++ fgroup
  | none => tablePath ++ "/files/" ++ fgroup

/-- The round trip of C8: `_load_schema`; `_store_schema`; `_load_schema`. -/
def loadStoreLoad (f : SchemaFile) : Except String TableState :=
  match loadSchema f with
  | .ok st => loadSchema (storeSchema st)
  | .error e => .error e

/-- An empty cgroup schema, to build concrete instances from. -/
def emptyCGroupSchema : CGroupSchema :=
  { columns := [], primary_key := none, spatial_keys := none
    temporal_key := none, exposure_key := none, blobs := none
    pathOpt := none, filtersOpt := none, expectedrows := none }

/-- A cgroup schema with one plain column, for concrete instances. -/
def cgX : CGroupSchema :=
  { emptyCGroupSchema with columns := [("x", "f8")] }

/-- A primary cgroup schema declaring one key column. -/
def cgA : CGroupSchema :=
  { emptyCGroupSchema with
    columns := [("id", "u8")]
    primary_key := some "id" }

/-- A loadable schema file that stores a cgroup whose name begins with an
underscore: `_load_schema` accepts it, but `_store_schema` silently drops
the cgroup, so the reload differs from the first load. -/
def underscoreCgroupFile : SchemaFile :=
  { name := "t", nrows := some 0, level := 7, t0 := 54335, dt := 1
    cgroups := [("_x", cgX), ("A", cgA)]
    fgroups := [], filters := [], aliases := [] }

/-- A well-formed schema file (no underscore cgroup names). -/
def exampleFile : SchemaFile :=
  { name := "t", nrows := some 0, level := 7, t0 := 54335, dt := 1
    cgroups := [("A", cgA)]
    fgroups := [("g", ⟨some "/p", none⟩)], filters := [("c", 5)]
    aliases := [("al", "id")] }

/-- The in-memory state `_load_schema` produces from `exampleFile`. -/
def exampleState : TableState :=
  { name := "t", nrows := some 0, level := 7, t0 := 54335, dt := 1
    cgroups := [("A", cgA), ("_PSEUDOCOLS", pseudocolsSchema)]
    fgroups := [("g", ⟨some "/p", none⟩)], filters := [("c", 5)]
    aliases := [("al", "id")]
    columns := [("id", ⟨"id", "A", "u8", false⟩),
      ("_CACHED", ⟨"_CACHED", "_PSEUDOCOLS", "bool", false⟩),
      ("_ROWIDX", ⟨"_ROWIDX", "_PSEUDOCOLS", "u8", false⟩),
      ("_ROWID", ⟨"_ROWID", "_PSEUDOCOLS", "u8", false⟩)]
    primary_cgroup := some "A"
    primary_key := some ⟨"id", "A", "u8", false⟩
    spatial_keys := none, temporal_key := none }

/-! ## Generic list lemmas -/

theorem getD_of_lt {α : Type} (l : List α) (n : Nat) (d : α) (h : n < l.length) :
    l.getD n d = l.get ⟨n, h⟩ := by
  simp [List.getD_eq_getElem?_getD, List.getElem?_eq_getElem h, List.get_eq_getElem]

theorem getD_map_of_lt {α β : Type} (l : List α) (f : α → β) (j : Nat)
    (hj : j < l.length) (d : β) :
    (l.map f).getD j d = f (l.get ⟨j, hj⟩) := by
  simp [List.getD_eq_getElem?_getD, List.getElem?_eq_getElem, hj, List.getElem?_map,
    List.get_eq_getElem]

theorem mem_npUnique {α : Type} [LinearOrder α] [DecidableEq α] {l : List α}
    {x : α} : x ∈ npUnique l ↔ x ∈ l := by
  unfold npUnique
  rw [List.mem_dedup]
  exact (List.perm_insertionSort _ l).mem_iff

theorem nodup_npUnique {α : Type} [LinearOrder α] [DecidableEq α] (l : List α) :
    (npUnique l).Nodup := List.nodup_dedup _

theorem sorted_npUnique {α : Type} [LinearOrder α] [DecidableEq α] (l : List α) :
    (npUnique l).Pairwise (· ≤ ·) :=
  (List.sorted_insertionSort _ l).sublist (List.dedup_sublist _)

theorem npUnique_zero_head {l : List Nat} (h0 : (0 : Nat) ∈ l) :
    ∃ t, npUnique l = 0 :: t ∧ (0 : Nat) ∉ t := by
  have hmem : (0 : Nat) ∈ npUnique l := mem_npUnique.mpr h0
  have hnd := nodup_npUnique l
  have hsort := sorted_npUnique l
  cases hsu : npUnique l with
  | nil => rw [hsu] at hmem; simp at hmem
  | cons a t =>
    rw [hsu] at hmem hnd hsort
    have ha : a = 0 := by
      rcases List.mem_cons.mp hmem with h | h
      · exact h.symm
      · have := (List.pairwise_cons.mp hsort).1 0 h
        omega
    subst ha
    exact ⟨t, rfl, (List.nodup_cons.mp hnd).1⟩

theorem getD_indexOf_map {α β : Type} [DecidableEq β] (g : β → α) (d : α)
    (l : List α) (f : α → β) (hg : ∀ x ∈ l, g (f x) = x) :
    ∀ v ∈ l.map f, l.getD ((l.map f).indexOf v) d = g v := by
  induction l with
  | nil => intro v hv; simp at hv
  | cons a t ih =>
    intro v hv
    rcases eq_or_ne v (f a) with h | h
    · subst h
      rw [List.map_cons, List.indexOf_cons_self, List.getD_cons_zero]
      exact (hg a (List.mem_cons_self a t)).symm
    · have hvt : v ∈ t.map f := by
        rw [List.map_cons] at hv
        exact (List.mem_cons.mp hv).resolve_left h
      rw [List.map_cons, List.indexOf_cons_ne _ (Ne.symm h), List.getD_cons_succ]
      exact ih (fun x hx => hg x (List.mem_cons_of_mem a hx)) v hvt

theorem map_getD_indexOf {α β : Type} [DecidableEq α] (f : α → β) (d : β)
    (s : List α) : ∀ x ∈ s, (s.map f).getD (s.indexOf x) d = f x := by
  induction s with
  | nil => intro x hx; simp at hx
  | cons a t ih =>
    intro x hx
    rcases eq_or_ne x a with h | h
    · subst h; rw [List.indexOf_cons_self, List.map_cons, List.getD_cons_zero]
    · rw [List.indexOf_cons_ne _ (Ne.symm h), List.map_cons, List.getD_cons_succ]
      exact ih x ((List.mem_cons.mp hx).resolve_left h)

/-! ## C1 — helper lemmas -/

theorem objOfIdent_pid (x : Option Nat) : objOfIdent (pid x) = x := by
  cases x <;> rfl

theorem objOfIdent_injective : Function.Injective objOfIdent := by
  intro a b hab
  cases a <;> cases b <;> simp [objOfIdent] at hab ⊢ <;> omega

theorem zero_mem_map_pid {flatB : List (Option Nat)} :
    (0 : Nat) ∈ flatB.map pid ↔ none ∈ flatB := by
  constructor
  · intro h
    rcases List.mem_map.mp h with ⟨x, hx, hpx⟩
    have hxn : x = none := by
      cases x with
      | none => rfl
      | some i => simp [pid] at hpx
    rwa [hxn] at hx
  · intro h
    exact List.mem_map.mpr ⟨none, h, rfl⟩

theorem mem_blobUnique {flatB : List (Option Nat)} {v : Nat} :
    v ∈ blobUnique flatB ↔ v ∈ flatB.map pid := by
  unfold blobUnique blobIdents
  exact mem_npUnique

theorem nodup_blobUnique (flatB : List (Option Nat)) :
    (blobUnique flatB).Nodup := nodup_npUnique _

theorem blobUnique_zero_head {flatB : List (Option Nat)}
    (h0 : none ∈ flatB) :
    ∃ t, blobUnique flatB = 0 :: t ∧ (0 : Nat) ∉ t := by
  unfold blobUnique blobIdents
  exact npUnique_zero_head (zero_mem_map_pid.mpr h0)

theorem blobUobjs_eq (flatB : List (Option Nat)) :
    blobUobjs flatB = (blobUnique flatB).map objOfIdent := by
  unfold blobUobjs blobIdents
  apply List.map_congr_left
  intro v hv
  have hv' : v ∈ flatB.map pid := mem_blobUnique.mp hv
  exact getD_indexOf_map objOfIdent none flatB pid
    (fun x _ => objOfIdent_pid x) v hv'

/-- Closed form of `blobStep` when the batch contains a `None`:
`np.unique` sorts `id(None) = 0` to the front, the head is dropped from
the appended values, `None` rows get reference 0, and a row holding the
object of identity `v` gets reference `bsize + t.indexOf v` where `t` is
the tail of the sorted unique identities. -/
theorem blobStep_char_of_none (bsize : Nat) (flatB : List (Option Nat))
    (h0 : none ∈ flatB) :
    ∃ t, blobUnique flatB = 0 :: t ∧ (0 : Nat) ∉ t ∧
      (blobStep bsize flatB).1 = t.map objOfIdent ∧
      (blobStep bsize flatB).2 = (flatB.map pid).map
        (fun v => if v = 0 then (0 : Int)
          else (bsize : Int) + ((t.indexOf v : Nat) : Int)) := by
  obtain ⟨t, hsu, h0t⟩ := blobUnique_zero_head h0
  have huobjs : blobUobjs flatB = none :: t.map objOfIdent := by
    rw [blobUobjs_eq, hsu, List.map_cons]
    rfl
  have hito : blobIto bsize flatB = (flatB.map pid).map
      (fun v => ((List.indexOf v (0 :: t) : Int) + (bsize : Int))) := by
    unfold blobIto blobIdents
    simp only [hsu]
  have hfst : (blobStep bsize flatB).1 = t.map objOfIdent := by
    unfold blobStep
    rw [huobjs, List.headD_cons, if_pos rfl, List.tail_cons]
  have hsnd : (blobStep bsize flatB).2 =
      ((blobIto bsize flatB).map (fun r => r - 1)).map
        (fun r => if r = (bsize : Int) - 1 then 0 else r) := by
    unfold blobStep
    rw [huobjs, List.headD_cons, if_pos rfl]
  refine ⟨t, hsu, h0t, hfst, ?_⟩
  rw [hsnd, hito, List.map_map, List.map_map]
  apply List.map_congr_left
  intro v hv
  simp only [Function.comp]
  rcases eq_or_ne v 0 with hv0 | hv0
  · subst hv0
    rw [List.indexOf_cons_self]
    norm_num
  · rw [List.indexOf_cons_ne _ (Ne.symm hv0), if_neg hv0]
    split_ifs with h
    · omega
    · omega

/-- Closed form of `blobStep` when the batch contains no `None`: all
unique values are appended and the row references are `bsize` plus the
position of the row's identity among the sorted unique identities. -/
theorem blobStep_char_no_none (bsize : Nat) (flatB : List (Option Nat))
    (h0 : none ∉ flatB) :
    (blobStep bsize flatB).1 = (blobUnique flatB).map objOfIdent ∧
    (blobStep bsize flatB).2 = blobIto bsize flatB := by
  have h0' : (0 : Nat) ∉ flatB.map pid := fun h => h0 (zero_mem_map_pid.mp h)
  have hcond : ((blobUnique flatB).map objOfIdent).headD (some 0) ≠ none := by
    cases hsu : blobUnique flatB with
    | nil => simp
    | cons a s =>
      have ha : a ∈ blobUnique flatB := by
        rw [hsu]
        exact List.mem_cons_self a s
      have ha' : a ∈ flatB.map pid := mem_blobUnique.mp ha
      have ha0 : a ≠ 0 := fun h => h0' (h ▸ ha')
      cases a with
      | zero => exact absurd rfl ha0
      | succ i => simp [objOfIdent]
  unfold blobStep
  rw [blobUobjs_eq, if_neg hcond]
  exact ⟨rfl, rfl⟩

theorem getD_map_pid (flatB : List (Option Nat)) (F : Nat → Int) (j : Nat)
    (hj : j < flatB.length) :
    ((flatB.map pid).map F).getD j 0 = F (pid (flatB.get ⟨j, hj⟩)) := by
  rw [List.map_map]
  have h := getD_map_of_lt flatB (F ∘ pid) j hj 0
  simpa [Function.comp] using h

/-- C1: During append, for every blob column, values in the batch are
deduplicated by Python object identity: any two rows whose blob entries
are the same in-memory object receive equal references and the value is
stored at most once in the VLArray; a None (sentinel) value in the batch
is mapped to reference 0 and is not appended to the VLArray. -/
theorem C1_blob_identity_dedup (bsize : Nat) (flatB : List (Option Nat)) :
    (blobStep bsize flatB).2.length = flatB.length ∧
    (∀ j k (hj : j < flatB.length) (hk : k < flatB.length),
      flatB.get ⟨j, hj⟩ = flatB.get ⟨k, hk⟩ →
      (blobStep bsize flatB).2.getD j 0 = (blobStep bsize flatB).2.getD k 0) ∧
    (blobStep bsize flatB).1.Nodup ∧
    (∀ x ∈ (blobStep bsize flatB).1, x ∈ flatB ∧ x ≠ none) ∧
    (∀ j (hj : j < flatB.length), flatB.get ⟨j, hj⟩ = none →
      (blobStep bsize flatB).2.getD j 0 = 0) := by
  by_cases hn : none ∈ flatB
  · obtain ⟨t, hsu, h0t, hfst, hsnd⟩ := blobStep_char_of_none bsize flatB hn
    have hnd : t.Nodup := by
      have h := nodup_blobUnique flatB
      rw [hsu] at h
      exact (List.nodup_cons.mp h).2
    refine ⟨?_, ?_, ?_, ?_, ?_⟩
    · rw [hsnd]
      simp
    · intro j k hj hk hjk
      rw [hsnd, getD_map_pid flatB _ j hj, getD_map_pid flatB _ k hk, hjk]
    · rw [hfst]
      exact hnd.map objOfIdent_injective
    · intro x hx
      rw [hfst] at hx
      rcases List.mem_map.mp hx with ⟨v, hvt, rfl⟩
      have hvu : v ∈ blobUnique flatB := by
        rw [hsu]
        exact List.mem_cons_of_mem 0 hvt
      rcases List.mem_map.mp (mem_blobUnique.mp hvu) with ⟨y, hy, hpy⟩
      refine ⟨by rw [← hpy, objOfIdent_pid]; exact hy, ?_⟩
      have hv0 : v ≠ 0 := fun h => h0t (h ▸ hvt)
      cases v with
      | zero => exact absurd rfl hv0
      | succ i => simp [objOfIdent]
    · intro j hj hjn
      rw [hsnd, getD_map_pid flatB _ j hj, hjn]
      simp [pid]
  · obtain ⟨hfst, hsnd⟩ := blobStep_char_no_none bsize flatB hn
    have hito : blobIto bsize flatB = (flatB.map pid).map
        (fun v => ((blobUnique flatB).indexOf v : Int) + (bsize : Int)) := rfl
    refine ⟨?_, ?_, ?_, ?_, ?_⟩
    · rw [hsnd, hito]
      simp
    · intro j k hj hk hjk
      rw [hsnd, hito, getD_map_pid flatB _ j hj, getD_map_pid flatB _ k hk, hjk]
    · rw [hfst]
      exact (nodup_blobUnique flatB).map objOfIdent_injective
    · intro x hx
      rw [hfst] at hx
      rcases List.mem_map.mp hx with ⟨v, hvu, rfl⟩
      have hvp : v ∈ flatB.map pid := mem_blobUnique.mp hvu
      rcases List.mem_map.mp hvp with ⟨y, hy, hpy⟩
      refine ⟨by rw [← hpy, objOfIdent_pid]; exact hy, ?_⟩
      have hv0 : v ≠ 0 := fun h => hn (zero_mem_map_pid.mp (h ▸ hvp))
      cases v with
      | zero => exact absurd rfl hv0
      | succ i => simp [objOfIdent]
    · intro j hj hjn
      exact absurd (hjn ▸ List.get_mem flatB j hj) hn

theorem C1_blob_identity_dedup_witness :
    (blobStep 1 [some 5, some 5, none]).2.getD 0 0 =
      (blobStep 1 [some 5, some 5, none]).2.getD 1 0 ∧
    (blobStep 1 [some 5, some 5, none]).2.getD 2 0 = 0 :=
  ⟨(C1_blob_identity_dedup 1 [some 5, some 5, none]).2.1 0 1 (by decide)
      (by decide) (by decide),
   (C1_blob_identity_dedup 1 [some 5, some 5, none]).2.2.2.2 2 (by decide)
      (by decide)⟩

/-! ## C2 — helper lemmas and claim -/

theorem countZeros_cons_zero (l : List Nat) :
    countZeros (0 :: l) = countZeros l + 1 := by
  simp [countZeros]

theorem countZeros_cons_succ (b : Nat) (l : List Nat) :
    countZeros ((b + 1) :: l) = countZeros l := by
  simp [countZeros]

theorem le_listMax (l : List Nat) : ∀ p ∈ l, p ≤ listMax l := by
  induction l with
  | nil => intro p hp; simp at hp
  | cons a t ih =>
    intro p hp
    rcases List.mem_cons.mp hp with h | h
    · rw [h]
      exact le_max_left a (listMax t)
    · exact le_trans (ih p h) (le_max_right a (listMax t))

theorem assignGen_bound : ∀ (inc : List Nat) (next : Nat) (p : Nat),
    p ∈ assignGen inc next → p < next + countZeros inc ∨ (p ∈ inc ∧ p ≠ 0)
  | [], next, p => by
      intro hp
      simp [assignGen] at hp
  | 0 :: rest, next, p => by
      intro hp
      rw [assignGen] at hp
      rcases List.mem_cons.mp hp with h | h
      · subst h
        left
        rw [countZeros_cons_zero]
        omega
      · rcases assignGen_bound rest (next + 1) p h with h2 | h2
        · left
          rw [countZeros_cons_zero]
          omega
        · exact Or.inr ⟨List.mem_cons_of_mem _ h2.1, h2.2⟩
  | (b + 1) :: rest, next, p => by
      intro hp
      rw [assignGen] at hp
      rcases List.mem_cons.mp hp with h | h
      · subst h
        exact Or.inr ⟨List.mem_cons_self _ _, Nat.succ_ne_zero b⟩
      · rcases assignGen_bound rest next p h with h2 | h2
        · left
          rw [countZeros_cons_succ]
          omega
        · exact Or.inr ⟨List.mem_cons_of_mem _ h2.1, h2.2⟩

/-- C2: For every cell whose main row group is written by an append, after
the append completes the per-cell sequence array holds a value strictly
greater than every obj_part stored in that cell's main row table: the
sequence is raised to `max(current, max(incoming obj_part) + 1)` before
autogeneration, advanced by the number of generated keys, and for
`group='cached'` writes it is never consulted (it stays unchanged and the
main table is untouched). -/
theorem C2_seq_invariant (st : CellState) (incoming : List Nat)
    (hinv : ∀ p ∈ st.mainObjParts, p < st.seq) :
    (∀ p ∈ (appendMain st incoming).mainObjParts,
      p < (appendMain st incoming).seq) ∧
    (appendMain st incoming).seq =
      max st.seq (listMax incoming + 1) + countZeros incoming ∧
    (appendCachedGroup st incoming).seq = st.seq ∧
    (appendCachedGroup st incoming).mainObjParts = st.mainObjParts := by
  refine ⟨?_, rfl, rfl, rfl⟩
  intro p hp
  simp only [appendMain] at hp ⊢
  rcases List.mem_append.mp hp with h | h
  · have h1 := hinv p h
    have h2 : st.seq ≤ max st.seq (listMax incoming + 1) := le_max_left _ _
    omega
  · rcases assignGen_bound incoming (max st.seq (listMax incoming + 1)) p h with
      h2 | h2
    · omega
    · have h3 := le_listMax incoming p h2.1
      have h4 : listMax incoming + 1 ≤ max st.seq (listMax incoming + 1) :=
        le_max_right _ _
      omega

theorem C2_seq_invariant_witness :
    11 < (appendMain ⟨5, [1, 4], []⟩ [0, 9, 0]).seq ∧
    (appendMain ⟨5, [1, 4], []⟩ [0, 9, 0]).seq = 12 :=
  ⟨(C2_seq_invariant ⟨5, [1, 4], []⟩ [0, 9, 0] (by decide)).1 11 (by decide),
   by decide⟩

/-! ## C3 — helper lemmas and claim -/

theorem objPart_maskBase (k : Nat) : objPart (maskBase k) = 0 := by
  have hm : (0xFFFFFFFF00000000 : Nat) % 2 ^ 32 = 0 := by norm_num
  unfold objPart maskBase
  apply Nat.eq_of_testBit_eq
  intro i
  rw [Nat.testBit_mod_two_pow, Nat.testBit_land]
  rcases lt_or_ge i 32 with hi | hi
  · have h1 := Nat.testBit_mod_two_pow (0xFFFFFFFF00000000 : Nat) 32 i
    rw [hm] at h1
    have hmb : (0xFFFFFFFF00000000 : Nat).testBit i = false := by
      rw [Nat.zero_testBit] at h1
      simpa [hi] using h1.symm
    simp [hmb, Nat.zero_testBit]
  · have hni : ¬i < 32 := not_lt.mpr hi
    simp [hni, Nat.zero_testBit]

/-- C3: When the caller supplies the primary-key column to append, the
batch is accepted only if every supplied key is a bare cell-ID, or the
update flag is true, or an explicit cell_id argument was passed; otherwise
append fails before writing any cell.  Keys recognized as bare cell-IDs
have their obj_part masked to zero. -/
theorem C3_key_check (valid : Nat → Bool) (keys : List Nat)
    (update cellIdGiven : Bool) :
    ((∃ res, appendKeyPhase valid keys update cellIdGiven = .ok res) ↔
      (keys.all (isCellId valid) = true ∨ update = true ∨
        cellIdGiven = true)) ∧
    (∀ res, appendKeyPhase valid keys update cellIdGiven = .ok res →
      res = maskKeys valid keys ∧ res.length = keys.length ∧
      ∀ j (hj : j < keys.length), isCellId valid (keys.get ⟨j, hj⟩) = true →
        objPart (res.getD j 0) = 0) := by
  unfold appendKeyPhase
  by_cases hc : (keys.all (isCellId valid) || update || cellIdGiven) = true
  · rw [if_pos hc]
    constructor
    · constructor
      · intro _
        simpa [Bool.or_eq_true, or_assoc] using hc
      · intro _
        exact ⟨maskKeys valid keys, rfl⟩
    · intro res hres
      injection hres with h
      subst h
      refine ⟨rfl, by simp [maskKeys], ?_⟩
      intro j hj hcell
      have hlen : j < keys.length := hj
      unfold maskKeys
      rw [getD_map_of_lt keys _ j hlen, if_pos hcell]
      exact objPart_maskBase _
  · rw [if_neg hc]
    constructor
    · constructor
      · intro ⟨res, hres⟩
        exact Except.noConfusion hres
      · intro h
        exact absurd (by simpa [Bool.or_eq_true, or_assoc] using h) hc
    · intro res hres
      exact Except.noConfusion hres

theorem C3_key_check_witness :
    objPart ((maskKeys (fun _ => true) [3 * 2 ^ 32]).getD 0 0) = 0 ∧
    appendKeyPhase (fun _ => true) [3 * 2 ^ 32] false false =
      .ok (maskKeys (fun _ => true) [3 * 2 ^ 32]) := by
  have happ : appendKeyPhase (fun _ => true) [3 * 2 ^ 32] false false =
      .ok (maskKeys (fun _ => true) [3 * 2 ^ 32]) := by rfl
  have h := (C3_key_check (fun _ => true) [3 * 2 ^ 32] false false).2
    (maskKeys (fun _ => true) [3 * 2 ^ 32]) happ
  exact ⟨h.2.2 0 (by decide) (by decide), happ⟩

/-! ## C4 — helper lemmas and claim -/

theorem getD_append_left {α : Type} (l l2 : List α) (n : Nat)
    (h : n < l.length) (d : α) : (l ++ l2).getD n d = l.getD n d := by
  simp [List.getD_eq_getElem?_getD, List.getElem?_append, h]

theorem getD_append_right_add {α : Type} (l l2 : List α) (n : Nat) (d : α) :
    (l ++ l2).getD (l.length + n) d = l2.getD n d := by
  simp [List.getD_eq_getElem?_getD, List.getElem?_append,
    Nat.add_sub_cancel_left]

theorem getD_set_int : ∀ (l : List Int) (i p : Nat) (v : Int),
    (l.set i v).getD p 0 = if i = p ∧ i < l.length then v else l.getD p 0
  | [], i, p, v => by simp
  | a :: t, 0, 0, v => by simp
  | a :: t, 0, p + 1, v => by simp
  | a :: t, i + 1, 0, v => by simp
  | a :: t, i + 1, p + 1, v => by
      rw [List.set_cons_succ, List.getD_cons_succ, List.getD_cons_succ,
        getD_set_int t i p v]
      have hc : (i = p ∧ i < t.length) ↔
          (i + 1 = p + 1 ∧ i + 1 < (a :: t).length) := by
        rw [List.length_cons]
        omega
      exact if_congr hc rfl rfl

theorem negFold_getD : ∀ (blobIdxs : List Nat), blobIdxs.Nodup →
    ∀ (row : List Int) (p : Nat),
    (blobIdxs.foldl (fun r ci => negCol ci r) row).getD p 0 =
      if p ∈ blobIdxs ∧ p < row.length then -(row.getD p 0)
      else row.getD p 0
  | [], _, row, p => by simp
  | ci :: rest, hnd, row, p => by
      have hnd2 : rest.Nodup := (List.nodup_cons.mp hnd).2
      have hci : ci ∉ rest := (List.nodup_cons.mp hnd).1
      rw [List.foldl_cons, negFold_getD rest hnd2 (negCol ci row) p]
      have hlen : (negCol ci row).length = row.length := by
        simp [negCol]
      rcases eq_or_ne p ci with hpc | hpc
      · subst hpc
        rw [if_neg (fun h => hci h.1)]
        unfold negCol
        rw [getD_set_int]
        rcases lt_or_ge p row.length with hl | hl
        · rw [if_pos ⟨rfl, hl⟩, if_pos ⟨List.mem_cons_self p rest, hl⟩]
        · rw [if_neg (fun h => absurd h.2 (not_lt.mpr hl)),
            if_neg (fun h => absurd h.2 (not_lt.mpr hl))]
      · have hgd : (negCol ci row).getD p 0 = row.getD p 0 := by
          unfold negCol
          rw [getD_set_int]
          exact if_neg (fun h => hpc h.1.symm)
        rw [hlen, hgd]
        have hmem : (p ∈ rest ∧ p < row.length) ↔
            (p ∈ ci :: rest ∧ p < row.length) := by
          constructor
          · rintro ⟨h1, h2⟩
            exact ⟨List.mem_cons_of_mem _ h1, h2⟩
          · rintro ⟨h1, h2⟩
            exact ⟨(List.mem_cons.mp h1).resolve_left hpc, h2⟩
        exact if_congr hmem rfl rfl

theorem negBlobCols_eq_map : ∀ (blobIdxs : List Nat) (rows : List (List Int)),
    negBlobCols blobIdxs rows =
      rows.map (fun row => blobIdxs.foldl (fun r ci => negCol ci r) row)
  | [], rows => by simp [negBlobCols]
  | ci :: rest, rows => by
      unfold negBlobCols
      rw [List.foldl_cons]
      have ih := negBlobCols_eq_map rest (rows.map (negCol ci))
      unfold negBlobCols at ih
      rw [ih, List.map_map]
      rfl

/-- C4: `fetch_tablet(cell_id, cgroup, include_cached)` for a non-pseudo
cgroup returns an empty array when the tablet file does not exist;
otherwise it returns the main row group's rows, and when `include_cached`
is true and a cached group exists, the cached rows with every
blob-reference column negated are appended after the main rows. -/
theorem C4_fetch_tablet (file : Option TabletFile) (blobIdxs : List Nat)
    (includeCached : Bool) (hnd : blobIdxs.Nodup) :
    (file = none → fetchTablet file blobIdxs includeCached = []) ∧
    (∀ fp, file = some fp → includeCached = false →
      fetchTablet file blobIdxs includeCached = fp.main) ∧
    (∀ fp, file = some fp → fp.cached = none →
      fetchTablet file blobIdxs includeCached = fp.main) ∧
    (∀ fp rows2, file = some fp → includeCached = true →
      fp.cached = some rows2 →
      (fetchTablet file blobIdxs includeCached).length =
        fp.main.length + rows2.length ∧
      (∀ j, j < fp.main.length →
        (fetchTablet file blobIdxs includeCached).getD j [] =
          fp.main.getD j []) ∧
      (∀ j, j < rows2.length → ∀ p : Nat,
        ((fetchTablet file blobIdxs includeCached).getD
            (fp.main.length + j) []).getD p 0 =
          if p ∈ blobIdxs ∧ p < (rows2.getD j []).length then
            -((rows2.getD j []).getD p 0)
          else (rows2.getD j []).getD p 0)) := by
  refine ⟨?_, ?_, ?_, ?_⟩
  · rintro rfl
    rfl
  · rintro fp rfl rfl
    rcases fp with ⟨m, c⟩
    cases c <;> rfl
  · rintro fp rfl hc
    rcases fp with ⟨m, c⟩
    have hc2 : c = none := hc
    subst hc2
    cases includeCached <;> rfl
  · rintro fp rows2 rfl rfl hc
    have hft : fetchTablet (some fp) blobIdxs true =
        fp.main ++ negBlobCols blobIdxs rows2 := by
      rcases fp with ⟨m, c⟩
      have hc2 : c = some rows2 := hc
      subst hc2
      rfl
    refine ⟨?_, ?_, ?_⟩
    · rw [hft, List.length_append, negBlobCols_eq_map, List.length_map]
    · intro j hj
      rw [hft, getD_append_left _ _ _ hj]
    · intro j hj p
      rw [hft, getD_append_right_add, negBlobCols_eq_map]
      have hj2 : j < rows2.length := hj
      rw [getD_map_of_lt rows2 _ j hj2, ← getD_of_lt rows2 j [] hj2]
      exact negFold_getD blobIdxs hnd (rows2.getD j []) p

theorem C4_fetch_tablet_witness :
    ((fetchTablet (some ⟨[[1, 10]], some [[2, 20]]⟩) [1] true).getD 1
        []).getD 1 0 = -20 := by
  have h := (C4_fetch_tablet (some ⟨[[1, 10]], some [[2, 20]]⟩) [1] true
    (by decide)).2.2.2 ⟨[[1, 10]], some [[2, 20]]⟩ [[2, 20]] rfl rfl rfl
  have h2 := h.2.2 0 (by decide) 1
  simpa using h2

/-! ## C6 — helper lemmas and claim -/

theorem getD_range_map {β : Type} (f : Nat → β) (n i : Nat) (h : i < n)
    (d : β) : ((List.range n).map f).getD i d = f i := by
  have hlen : i < (List.range n).length := by simpa using h
  rw [getD_map_of_lt (List.range n) f i hlen d]
  congr 1
  simp [List.get_eq_getElem, List.getElem_range]

theorem getD_range (n i : Nat) (h : i < n) : (List.range n).getD i 0 = i := by
  have hlen : i < (List.range n).length := by simpa using h
  rw [getD_of_lt _ _ _ hlen]
  simp [List.get_eq_getElem, List.getElem_range]

/-- C6: Reading the pseudotablet `_PSEUDOCOLS` for a cell yields three
columns of length `n = n_main + n_cached` (`n_cached` counted only when
`include_cached` is true, both 0 when the primary tablet does not exist):
`_CACHED` is false for the first `n_main` entries and true for the
remaining `n_cached`, `_ROWIDX` is the sequence `0..n-1`, and `_ROWID`
equals `pix.id_for_cell_i(cell_id, _ROWIDX)`. -/
theorem C6_pseudotablet (idF : Nat → Nat → Nat) (cellId : Nat)
    (file : Option TabletFile) (includeCached : Bool) (n1 n2 : Nat)
    (hn1 : n1 = (match file with | none => 0 | some fp => fp.main.length))
    (hn2 : n2 = (match file, includeCached with
      | some fp, true =>
          (match fp.cached with | some c => c.length | none => 0)
      | _, _ => 0)) :
    ((fetchPseudotablet idF cellId file includeCached).1.length = n1 + n2 ∧
     (fetchPseudotablet idF cellId file includeCached).2.1.length =
       n1 + n2 ∧
     (fetchPseudotablet idF cellId file includeCached).2.2.length =
       n1 + n2) ∧
    (∀ i, i < n1 →
      (fetchPseudotablet idF cellId file includeCached).1.getD i false =
        false) ∧
    (∀ i, n1 ≤ i → i < n1 + n2 →
      (fetchPseudotablet idF cellId file includeCached).1.getD i false =
        true) ∧
    (∀ i, i < n1 + n2 →
      (fetchPseudotablet idF cellId file includeCached).2.1.getD i 0 = i) ∧
    (∀ i, i < n1 + n2 →
      (fetchPseudotablet idF cellId file includeCached).2.2.getD i 0 =
        idF cellId i) := by
  have hred : fetchPseudotablet idF cellId file includeCached =
      ((List.range (n1 + n2)).map (fun i => decide (n1 ≤ i)),
        List.range (n1 + n2), (List.range (n1 + n2)).map (idF cellId)) := by
    subst hn1
    subst hn2
    rcases file with _ | ⟨m, c⟩
    · rfl
    · cases includeCached
      · rfl
      · cases c
        · rfl
        · rfl
  rw [hred]
  refine ⟨⟨by simp, by simp, by simp⟩, ?_, ?_, ?_, ?_⟩
  · intro i hi
    rw [getD_range_map _ _ i (by omega)]
    exact decide_eq_false (by omega)
  · intro i hi1 hi2
    rw [getD_range_map _ _ i (by omega)]
    exact decide_eq_true (by omega)
  · intro i hi
    exact getD_range _ i hi
  · intro i hi
    exact getD_range_map _ _ i hi 0

theorem C6_pseudotablet_witness :
    (fetchPseudotablet (fun c i => c * 100 + i) 7
        (some ⟨[[1], [2]], some [[3]]⟩) true).2.2.getD 2 0 = 702 ∧
    (fetchPseudotablet (fun c i => c * 100 + i) 7
        (some ⟨[[1], [2]], some [[3]]⟩) true).1.getD 2 false = true := by
  have h := C6_pseudotablet (fun c i => c * 100 + i) 7
    (some ⟨[[1], [2]], some [[3]]⟩) true 2 1 rfl rfl
  exact ⟨h.2.2.2.2 2 (by decide), h.2.2.1 2 (by decide) (by decide)⟩

/-! ## C5, C10 — helper lemmas and claims -/

theorem except_bind_ok {α β : Type} (a : α) (f : α → Except String β) :
    (Except.ok a >>= f) = f a := rfl

theorem except_pure_eq {α : Type} (a : α) :
    (pure a : Except String α) = .ok a := rfl

theorem smartLoadBlobs_ok (barray : List (Option Nat)) (refs : List Int)
    (hpos : ∀ r ∈ refs, 0 ≤ r) :
    smartLoadBlobs barray refs =
      .ok (refs.map (fun r => barray.getD r.toNat none)) := by
  have hall : (npUnique refs).all (fun r => decide (0 ≤ r)) = true := by
    rw [List.all_eq_true]
    intro r hr
    exact decide_eq_true (hpos r (mem_npUnique.mp hr))
  simp only [smartLoadBlobs]
  rw [if_pos hall]
  congr 1
  rw [List.map_map]
  apply List.map_congr_left
  intro r hr
  simp only [Function.comp]
  exact map_getD_indexOf (fun x => barray.getD x.toNat none) none
    (npUnique refs) r (mem_npUnique.mpr hr)

theorem smartLoadBlobs_error (barray : List (Option Nat)) (refs : List Int)
    (hneg : ∃ r ∈ refs, r < 0) :
    smartLoadBlobs barray refs =
      .error "Negative refs are illegal. Index 0 means None" := by
  obtain ⟨r, hr, hrneg⟩ := hneg
  have hcond : ¬((npUnique refs).all (fun x => decide (0 ≤ x)) = true) := by
    intro hall
    have h := (List.all_eq_true.mp hall) r (mem_npUnique.mpr hr)
    simp at h
    omega
  simp only [smartLoadBlobs]
  rw [if_neg hcond]

theorem maskAssign_cons_true (ms : List Bool) (b : Option Nat)
    (bs vs : List (Option Nat)) (v : Option Nat) :
    maskAssign (true :: ms) (b :: bs) (v :: vs) = v :: maskAssign ms bs vs :=
  rfl

theorem maskAssign_cons_false (ms : List Bool) (b : Option Nat)
    (bs vs : List (Option Nat)) :
    maskAssign (false :: ms) (b :: bs) vs = b :: maskAssign ms bs vs := rfl

theorem maskAssign_spec (f g : Int → Option Nat) :
    ∀ (refs : List Int) (base : List (Option Nat)),
      base.length = refs.length →
      maskAssign (refs.map (fun r => decide (r < 0)))
        (maskAssign (refs.map (fun r => decide (0 ≤ r))) base
          ((refs.filter (fun r => decide (0 ≤ r))).map f))
        ((refs.filter (fun r => decide (r < 0))).map g) =
      refs.map (fun r => if 0 ≤ r then f r else g r)
  | [], base, hb => by
      cases base with
      | nil => rfl
      | cons b bs => simp at hb
  | r :: rs, base, hb => by
      cases base with
      | nil => simp at hb
      | cons b bs =>
        have hb2 : bs.length = rs.length := by simpa using hb
        have ih := maskAssign_spec f g rs bs hb2
        by_cases hr : 0 ≤ r
        · have hr2 : ¬(r < 0) := not_lt.mpr hr
          have hf1 : (r :: rs).filter (fun x => decide (0 ≤ x)) =
              r :: rs.filter (fun x => decide (0 ≤ x)) := by
            simp [List.filter_cons, hr]
          have hf2 : (r :: rs).filter (fun x => decide (x < 0)) =
              rs.filter (fun x => decide (x < 0)) := by
            simp [List.filter_cons, hr2]
          have hm1 : (r :: rs).map (fun x => decide (0 ≤ x)) =
              true :: rs.map (fun x => decide (0 ≤ x)) := by
            simp [hr]
          have hm2 : (r :: rs).map (fun x => decide (x < 0)) =
              false :: rs.map (fun x => decide (x < 0)) := by
            simp [hr2]
          rw [hm1, hm2, hf1, hf2, List.map_cons, maskAssign_cons_true,
            maskAssign_cons_false, List.map_cons, if_pos hr]
          exact congrArg (List.cons (f r)) ih
        · have hr2 : r < 0 := not_le.mp hr
          have hf1 : (r :: rs).filter (fun x => decide (0 ≤ x)) =
              rs.filter (fun x => decide (0 ≤ x)) := by
            simp [List.filter_cons, hr]
          have hf2 : (r :: rs).filter (fun x => decide (x < 0)) =
              r :: rs.filter (fun x => decide (x < 0)) := by
            simp [List.filter_cons, hr2]
          have hm1 : (r :: rs).map (fun x => decide (0 ≤ x)) =
              false :: rs.map (fun x => decide (0 ≤ x)) := by
            simp [hr]
          have hm2 : (r :: rs).map (fun x => decide (x < 0)) =
              true :: rs.map (fun x => decide (x < 0)) := by
            simp [hr2]
          rw [hm1, hm2, hf1, hf2, List.map_cons, maskAssign_cons_false,
            maskAssign_cons_true, List.map_cons, if_neg hr]
          exact congrArg (List.cons (g r)) ih

/-- C5: When loading blobs with include_cached and a cached group present,
for every reference array the rows with non-negative references resolve to
the values at those indices in `main/blobs/<col>`, the rows with negative
reference r resolve to the value at index `-r` in `cached/blobs/<col>`,
and the returned object array has the same shape as the input references
with each position holding the blob for its reference. -/
theorem C5_fetch_blobs_cached (mainArr cachedArr : List (Option Nat))
    (refs : List Int) :
    fetchBlobsFp mainArr (some cachedArr) true refs =
      .ok (refs.map (fun r =>
        if 0 ≤ r then mainArr.getD r.toNat none
        else cachedArr.getD (-r).toNat none)) ∧
    (refs.map (fun r =>
        if 0 ≤ r then mainArr.getD r.toNat none
        else cachedArr.getD (-r).toNat none)).length = refs.length ∧
    ∀ j, j < refs.length →
      (refs.map (fun r =>
          if 0 ≤ r then mainArr.getD r.toNat none
          else cachedArr.getD (-r).toNat none)).getD j none =
        if 0 ≤ refs.getD j 0 then
          mainArr.getD (refs.getD j 0).toNat none
        else cachedArr.getD (-(refs.getD j 0)).toNat none := by
  have hpos : ∀ r ∈ refs.filter (fun x => decide (0 ≤ x)), 0 ≤ r := by
    intro r hr
    have h := List.of_mem_filter hr
    simpa using h
  have hneg : ∀ r ∈ (refs.filter (fun x => decide (x < 0))).map
      (fun x => -x), 0 ≤ r := by
    intro r hr
    rcases List.mem_map.mp hr with ⟨x, hx, rfl⟩
    have h := List.of_mem_filter hx
    simp at h
    omega
  have h1 := smartLoadBlobs_ok mainArr
    (refs.filter (fun x => decide (0 ≤ x))) hpos
  have h2 := smartLoadBlobs_ok cachedArr
    ((refs.filter (fun x => decide (x < 0))).map (fun x => -x)) hneg
  have hout : fetchBlobsFp mainArr (some cachedArr) true refs =
      .ok (refs.map (fun r =>
        if 0 ≤ r then mainArr.getD r.toNat none
        else cachedArr.getD (-r).toNat none)) := by
    simp only [fetchBlobsFp, Option.isSome_some, Bool.and_self,
      Option.getD_some]
    rw [if_pos trivial, h1, except_bind_ok, h2, except_bind_ok, except_pure_eq]
    apply congrArg Except.ok
    rw [List.map_map]
    exact maskAssign_spec _ _ refs (List.replicate refs.length none)
      (by simp)
  refine ⟨hout, by simp, ?_⟩
  intro j hj
  rw [getD_map_of_lt refs _ j hj, ← getD_of_lt refs j 0 hj]

theorem C5_fetch_blobs_cached_witness :
    fetchBlobsFp [none, some 1] (some [none, some 2]) true [1, -1] =
      .ok ([1, -1].map (fun r =>
        if 0 ≤ r then ([none, some 1] : List (Option Nat)).getD r.toNat none
        else ([none, some 2] : List (Option Nat)).getD (-r).toNat none)) ∧
    ([1, -1].map (fun r =>
        if 0 ≤ r then ([none, some 1] : List (Option Nat)).getD r.toNat none
        else ([none, some 2] : List (Option Nat)).getD (-r).toNat
          none)).getD 1 none = some 2 := by
  obtain ⟨h1, h2, h3⟩ :=
    C5_fetch_blobs_cached [none, some 1] [none, some 2] [1, -1]
  exact ⟨h1, (h3 1 (by decide)).trans (by decide)⟩

/-- C10: when blobs are loaded without the cached side (include_cached
false, or no cached group in the file), a negative reference makes the
load fail with the negative-refs assertion rather than returning blob
values; under the precondition that all refs are non-negative the error
branch is unreachable and each ref resolves via the main array. -/
theorem C10_negative_refs (mainArr : List (Option Nat))
    (cachedArr : Option (List (Option Nat))) (includeCached : Bool)
    (refs : List Int)
    (hnc : includeCached = false ∨ cachedArr = none) :
    ((∃ r ∈ refs, r < 0) →
      fetchBlobsFp mainArr cachedArr includeCached refs =
        .error "Negative refs are illegal. Index 0 means None") ∧
    ((∀ r ∈ refs, 0 ≤ r) →
      fetchBlobsFp mainArr cachedArr includeCached refs =
        .ok (refs.map (fun r => mainArr.getD r.toNat none))) := by
  have hcond : (includeCached && cachedArr.isSome) = false := by
    rcases hnc with h | h
    · simp [h]
    · simp [h]
  have hbranch : fetchBlobsFp mainArr cachedArr includeCached refs =
      smartLoadBlobs mainArr refs := by
    simp only [fetchBlobsFp, hcond]
    rw [if_neg (by simp)]
  constructor
  · intro hneg
    rw [hbranch]
    exact smartLoadBlobs_error mainArr refs hneg
  · intro hpos
    rw [hbranch]
    exact smartLoadBlobs_ok mainArr refs hpos

theorem C10_negative_refs_witness :
    fetchBlobsFp [none, some 3] none false [-1] =
      .error "Negative refs are illegal. Index 0 means None" ∧
    fetchBlobsFp [none, some 3] none false [1] = .ok [some 3] := by
  have h1 := (C10_negative_refs [none, some 3] none false [-1]
    (Or.inl rfl)).1 ⟨-1, by decide, by decide⟩
  have h2 := (C10_negative_refs [none, some 3] none false [1]
    (Or.inl rfl)).2 (by decide)
  refine ⟨h1, ?_⟩
  rw [h2]
  rfl

/-! ## C7 — alias resolution -/

/-- C7: `resolve_alias(name)` returns the primary-key column name for
`_ID`, the longitude and latitude spatial-key names for `_LON` and `_LAT`,
the temporal-key name for `_TIME`, and the exposure-key name for `_EXP`,
in each case only when the corresponding key is declared in the primary
cgroup's schema; for any other name (or a built-in whose key is absent) it
returns the user alias map's entry when one exists and otherwise returns
the input name unchanged. -/
theorem C7_resolve_alias (schema : CGroupSchema)
    (aliases : List (String × String)) :
    (∀ kp, schema.primary_key = some kp →
      resolveAlias schema aliases "_ID" = kp) ∧
    (∀ lo la, schema.spatial_keys = some (lo, la) →
      resolveAlias schema aliases "_LON" = lo ∧
      resolveAlias schema aliases "_LAT" = la) ∧
    (∀ tk, schema.temporal_key = some tk →
      resolveAlias schema aliases "_TIME" = tk) ∧
    (∀ ek, schema.exposure_key = some ek →
      resolveAlias schema aliases "_EXP" = ek) ∧
    (∀ nm, nm ∉ (["_ID", "_LON", "_LAT", "_TIME", "_EXP"] : List String) →
      resolveAlias schema aliases nm = (aliases.lookup nm).getD nm) ∧
    (schema.primary_key = none →
      resolveAlias schema aliases "_ID" = (aliases.lookup "_ID").getD "_ID") ∧
    (schema.spatial_keys = none →
      resolveAlias schema aliases "_LON" =
        (aliases.lookup "_LON").getD "_LON" ∧
      resolveAlias schema aliases "_LAT" =
        (aliases.lookup "_LAT").getD "_LAT") ∧
    (schema.temporal_key = none →
      resolveAlias schema aliases "_TIME" =
        (aliases.lookup "_TIME").getD "_TIME") ∧
    (schema.exposure_key = none →
      resolveAlias schema aliases "_EXP" =
        (aliases.lookup "_EXP").getD "_EXP") := by
  refine ⟨?_, ?_, ?_, ?_, ?_, ?_, ?_, ?_, ?_⟩
  · intro kp h
    simp [resolveAlias, h]
  · intro lo la h
    constructor
    · simp [resolveAlias, h]
    · simp [resolveAlias, h]
  · intro tk h
    simp [resolveAlias, h]
  · intro ek h
    simp [resolveAlias, h]
  · intro nm hnm
    simp only [List.mem_cons, List.not_mem_nil, or_false, not_or] at hnm
    obtain ⟨h1, h2, h3, h4, h5⟩ := hnm
    simp [resolveAlias, beq_false_of_ne h1, beq_false_of_ne h2,
      beq_false_of_ne h3, beq_false_of_ne h4, beq_false_of_ne h5]
  · intro h
    simp [resolveAlias, h]
  · intro h
    constructor
    · simp [resolveAlias, h]
    · simp [resolveAlias, h]
  · intro h
    simp [resolveAlias, h]
  · intro h
    simp [resolveAlias, h]

theorem C7_resolve_alias_witness :
    resolveAlias ⟨[("id", "u8")], some "id", some ("ra", "dec"), none, none,
      none, none, none, none⟩ [("foo", "bar")] "_ID" = "id" ∧
    resolveAlias ⟨[("id", "u8")], some "id", some ("ra", "dec"), none, none,
      none, none, none, none⟩ [("foo", "bar")] "_LON" = "ra" ∧
    resolveAlias ⟨[("id", "u8")], some "id", some ("ra", "dec"), none, none,
      none, none, none, none⟩ [("foo", "bar")] "_TIME" = "_TIME" ∧
    resolveAlias ⟨[("id", "u8")], some "id", some ("ra", "dec"), none, none,
      none, none, none, none⟩ [("foo", "bar")] "foo" = "bar" := by
  have h := C7_resolve_alias ⟨[("id", "u8")], some "id", some ("ra", "dec"),
    none, none, none, none, none, none⟩ [("foo", "bar")]
  refine ⟨h.1 "id" rfl, (h.2.1 "ra" "dec" rfl).1, ?_, ?_⟩
  · exact (h.2.2.2.2.2.2.2.1 rfl).trans (by decide)
  · exact (h.2.2.2.2.1 "foo" (by decide)).trans (by decide)

/-! ## C9 — `_get_fgroup_path` (the spec flags the code as buggy) -/

/-- C9: evaluation at the failing input: the fgroup `a` is defined and its
definition stores `path = /p`, yet the code returns the default directory
because its second membership test (`'path' not in self._fgroups`) is on
the outer fgroups map; the spec-intended resolution returns `/p`. -/
theorem C9_fgroup_path_bug :
    getFgroupPath "/t" [("a", ⟨some "/p", none⟩)] "a" = .ok "/t/files/a" ∧
    getFgroupPathSpec "/t" [("a", ⟨some "/p", none⟩)] "a" = "/p" ∧
    ("/t/files/a" : String) ≠ "/p" := by
  refine ⟨rfl, rfl, by decide⟩

/-! ## C8 — lookup lemmas and schema round trip -/

theorem lookup_some_iff {β : Type} :
    ∀ (l : List (String × β)), (l.map Prod.fst).Nodup →
      ∀ (k : String) (v : β), (l.lookup k = some v ↔ (k, v) ∈ l)
  | [], _, k, v => by simp
  | (ka, va) :: t, hnd, k, v => by
      have hnd2 : (t.map Prod.fst).Nodup := by
        rw [List.map_cons] at hnd
        exact (List.nodup_cons.mp hnd).2
      have hka : ka ∉ t.map Prod.fst := by
        rw [List.map_cons] at hnd
        exact (List.nodup_cons.mp hnd).1
      by_cases hk : k = ka
      · subst hk
        have hlk : ((k, va) :: t).lookup k = some va := by
          simp [List.lookup]
        rw [hlk]
        constructor
        · intro h
          injection h with h
          subst h
          exact List.mem_cons_self _ _
        · intro h
          rcases List.mem_cons.mp h with h | h
          · have hv : v = va := (Prod.mk.injEq _ _ _ _).mp h |>.2
            rw [hv]
          · exact absurd (List.mem_map.mpr ⟨(k, v), h, rfl⟩) hka
      · have hlk : ((ka, va) :: t).lookup k = t.lookup k := by
          simp [List.lookup, beq_false_of_ne hk]
        rw [hlk, lookup_some_iff t hnd2 k v]
        constructor
        · exact fun h => List.mem_cons_of_mem _ h
        · intro h
          rcases List.mem_cons.mp h with h | h
          · exact absurd ((Prod.mk.injEq _ _ _ _).mp h).1 hk
          · exact h

theorem lookup_none_iff {β : Type} :
    ∀ (l : List (String × β)) (k : String),
      (l.lookup k = none ↔ k ∉ l.map Prod.fst)
  | [], k => by simp
  | (ka, va) :: t, k => by
      by_cases hk : k = ka
      · subst hk
        simp [List.lookup]
      · have hlk : ((ka, va) :: t).lookup k = t.lookup k := by
          simp [List.lookup, beq_false_of_ne hk]
        rw [hlk, lookup_none_iff t k]
        simp [hk]

theorem lookup_perm {β : Type} (l l2 : List (String × β))
    (hperm : List.Perm l l2) (hnd : (l.map Prod.fst).Nodup) (k : String) :
    l2.lookup k = l.lookup k := by
  have hnd2 : (l2.map Prod.fst).Nodup :=
    ((hperm.map Prod.fst).nodup_iff).mp hnd
  cases h : l.lookup k with
  | none =>
    have h2 := (lookup_none_iff l k).mp h
    exact (lookup_none_iff l2 k).mpr
      (fun hmem => h2 (((hperm.map Prod.fst).mem_iff).mpr hmem))
  | some v =>
    have h2 := (lookup_some_iff l hnd k v).mp h
    exact (lookup_some_iff l2 hnd2 k v).mpr (hperm.mem_iff.mp h2)

theorem lookup_sortPairsByKey {β : Type} (l : List (String × β))
    (hnd : (l.map Prod.fst).Nodup) (k : String) :
    (sortPairsByKey l).lookup k = l.lookup k :=
  lookup_perm l (sortPairsByKey l) (List.perm_insertionSort _ l).symm hnd k

theorem except_bind_error {α β : Type} (e : String)
    (f : α → Except String β) : (Except.error e >>= f) = .error e := rfl

/-- C8 counterexample: loading a schema file that stores an
underscore-named cgroup, then storing and loading again, does not
reproduce the first in-memory state (the cgroup list differs), so the
claim fails as stated for this reachable state. -/
theorem C8_counterexample :
    (loadStoreLoad underscoreCgroupFile).toOption.map TableState.cgroups ≠
      (loadSchema underscoreCgroupFile).toOption.map TableState.cgroups := by
  decide

/-- C8 (amended): for any table state reachable by loading a schema.cfg
whose stored cgroup names do not begin with an underscore, performing
`_load_schema`, then `_store_schema`, then `_load_schema` again yields the
same in-memory state: name, nrows, pixelization parameters, cgroup order
and definitions including the in-memory-only `_PSEUDOCOLS` pseudo-cgroup,
and the rebuilt column index are equal, while the fgroups, filters and
alias maps are equal as key-value maps (store re-serializes these JSON
objects with sorted keys, so their stored order may change when the
original file's keys were unsorted; key lists are assumed duplicate-free
as JSON objects have unique keys). -/
theorem C8_roundtrip (f : SchemaFile) (st1 : TableState)
    (hload : loadSchema f = .ok st1)
    (hnames : ∀ p ∈ f.cgroups, isPseudotablet p.1 = false)
    (hfg : (f.fgroups.map Prod.fst).Nodup)
    (hfl : (f.filters.map Prod.fst).Nodup)
    (hal : (f.aliases.map Prod.fst).Nodup) :
    ∃ st2, loadSchema (storeSchema st1) = .ok st2 ∧
      st2.name = st1.name ∧ st2.nrows = st1.nrows ∧
      st2.level = st1.level ∧ st2.t0 = st1.t0 ∧ st2.dt = st1.dt ∧
      st2.cgroups = st1.cgroups ∧
      (∀ k, st2.fgroups.lookup k = st1.fgroups.lookup k) ∧
      (∀ k, st2.filters.lookup k = st1.filters.lookup k) ∧
      (∀ k, st2.aliases.lookup k = st1.aliases.lookup k) ∧
      st2.columns = st1.columns ∧
      st2.primary_cgroup = st1.primary_cgroup ∧
      st2.primary_key = st1.primary_key ∧
      st2.spatial_keys = st1.spatial_keys ∧
      st2.temporal_key = st1.temporal_key := by
  have hmem : (f.cgroups.lookup "_PSEUDOCOLS") = none := by
    apply (lookup_none_iff f.cgroups "_PSEUDOCOLS").mpr
    intro hk
    rcases List.mem_map.mp hk with ⟨p, hp, hp1⟩
    have h := hnames p hp
    rw [hp1] at h
    exact absurd h (by decide)
  have hcg1 : assocSet f.cgroups "_PSEUDOCOLS" pseudocolsSchema =
      f.cgroups ++ [("_PSEUDOCOLS", pseudocolsSchema)] := by
    unfold assocSet
    rw [hmem]
    rfl
  unfold loadSchema at hload
  rw [hcg1] at hload
  cases hrb : rebuildAll (f.cgroups ++ [("_PSEUDOCOLS", pseudocolsSchema)]) with
  | error e =>
    rw [hrb, except_bind_error] at hload
    exact Except.noConfusion hload
  | ok rb =>
    rw [hrb, except_bind_ok] at hload
    have hst1 :
        ({ name := f.name, nrows := f.nrows, level := f.level, t0 := f.t0
           dt := f.dt
           cgroups := f.cgroups ++ [("_PSEUDOCOLS", pseudocolsSchema)]
           fgroups := f.fgroups, filters := f.filters, aliases := f.aliases
           columns := rb.columns, primary_cgroup := rb.primary_cgroup
           primary_key := rb.primary_key, spatial_keys := rb.spatial_keys
           temporal_key := rb.temporal_key } : TableState) = st1 := by
      injection hload
    have hcgs : st1.cgroups =
        f.cgroups ++ [("_PSEUDOCOLS", pseudocolsSchema)] := by
      rw [← hst1]
    have hfgs : st1.fgroups = f.fgroups := by rw [← hst1]
    have hfls : st1.filters = f.filters := by rw [← hst1]
    have hals : st1.aliases = f.aliases := by rw [← hst1]
    have hscg : (storeSchema st1).cgroups = f.cgroups := by
      show st1.cgroups.filter (fun p => !(isPseudotablet p.1)) = f.cgroups
      rw [hcgs, List.filter_append]
      have h1 : f.cgroups.filter (fun p => !(isPseudotablet p.1)) =
          f.cgroups := by
        apply List.filter_eq_self.mpr
        intro p hp
        rw [hnames p hp]
        rfl
      have h2 : List.filter (fun p => !(isPseudotablet p.1))
          [("_PSEUDOCOLS", pseudocolsSchema)] = [] := rfl
      rw [h1, h2, List.append_nil]
    refine ⟨{ name := (storeSchema st1).name
              nrows := (storeSchema st1).nrows
              level := (storeSchema st1).level, t0 := (storeSchema st1).t0
              dt := (storeSchema st1).dt
              cgroups := f.cgroups ++ [("_PSEUDOCOLS", pseudocolsSchema)]
              fgroups := (storeSchema st1).fgroups
              filters := (storeSchema st1).filters
              aliases := (storeSchema st1).aliases
              columns := rb.columns, primary_cgroup := rb.primary_cgroup
              primary_key := rb.primary_key
              spatial_keys := rb.spatial_keys
              temporal_key := rb.temporal_key },
      ?_, ?_, ?_, ?_, ?_, ?_, ?_, ?_, ?_, ?_, ?_, ?_, ?_, ?_, ?_⟩
    · unfold loadSchema
      rw [hscg, hcg1, hrb, except_bind_ok]
      rfl
    · rw [← hst1]
      rfl
    · rw [← hst1]
      rfl
    · rw [← hst1]
      rfl
    · rw [← hst1]
      rfl
    · rw [← hst1]
      rfl
    · rw [hcgs]
    · intro k
      show (sortPairsByKey st1.fgroups).lookup k = st1.fgroups.lookup k
      rw [hfgs]
      exact lookup_sortPairsByKey f.fgroups hfg k
    · intro k
      show (sortPairsByKey st1.filters).lookup k = st1.filters.lookup k
      rw [hfls]
      exact lookup_sortPairsByKey f.filters hfl k
    · intro k
      show (sortPairsByKey st1.aliases).lookup k = st1.aliases.lookup k
      rw [hals]
      exact lookup_sortPairsByKey f.aliases hal k
    · rw [← hst1]
    · rw [← hst1]
    · rw [← hst1]
    · rw [← hst1]
    · rw [← hst1]

theorem C8_roundtrip_witness :
    loadSchema exampleFile = .ok exampleState ∧
    (loadSchema (storeSchema exampleState)).toOption.map
        TableState.cgroups = some exampleState.cgroups := by
  obtain ⟨st2, h1, hname, hnr, hlv, ht0, hdt, hcg, hrest⟩ :=
    C8_roundtrip exampleFile exampleState (by rfl) (by decide)
      (by decide) (by decide) (by decide)
  refine ⟨by rfl, ?_⟩
  rw [h1]
  exact congrArg some hcg

end LSD
